import Mathlib

/-!
Shallow embedding of the primality-testing core of the Prime-Number-Generators
repository (headers include/primality/miller_rabin.h, include/primality/baillie_psw.h,
include/primality/primality_tester.h and include/utils/mpz_utils.h), together with
theorems settling the specification claims about it.

GMP arbitrary-precision integers (mpz_t) are embedded as Lean Int; all GMP
operations used by the code are translated to their documented mathematical
meaning: mpz_mod is Int.emod (nonnegative result for a positive modulus),
mpz_tdiv_q is Int.tdiv (truncation toward zero), mpz_powm is exponentiation
followed by reduction, mpz_jacobi is the Jacobi symbol (Mathlib jacobiSym),
mpz_sizeinbase(-, 2) is the binary bit length, mpz_urandomm / mpz_urandomb are
modelled by explicit streams of numbers supplied as arguments.  Loops that are
unbounded in the C source are given explicit fuel; fuel is always chosen at
least as large as the number of iterations the C loop can perform.
-/

namespace PrimeGen

/-- Models GMP mpz_powm from its specification: base ^ exponent reduced mod n. -/
def powMod (b : ℤ) (e : ℕ) (n : ℤ) : ℤ := b ^ e % n

/-- Fueled worker for `split2`: repeatedly halve while the value is even and

nonzero, counting the halvings.  Mirrors the `while (mpz_even_p(d))` loops of
miller_rabin.h (lines 51-54) and baillie_psw.h (lines 324-327, 414-417). -/
def split2Aux : ℕ → ℕ → ℕ × ℕ
  | 0, m => (m, 0)
  | f + 1, m =>
    if m % 2 = 0 ∧ m ≠ 0 then
      let p := split2Aux f (m / 2)
      (p.1, p.2 + 1)
    else (m, 0)

/-- Decompose m = d * 2 ^ s with d odd (for m > 0); returns (d, s).

Fuel m is enough: at most log2 m halvings occur. -/
def split2 (m : ℕ) : ℕ × ℕ := split2Aux m m

/-- Fueled worker for `bitLen`. -/
def bitLenAux : ℕ → ℕ → ℕ
  | 0, _ => 0
  | f + 1, m => if m = 0 then 0 else bitLenAux f (m / 2) + 1

/-- Binary length of a natural number: models mpz_sizeinbase(k, 2) for k ≥ 1
and the mpz_setbit-based bit-length bookkeeping of the repository. -/
def bitLen (m : ℕ) : ℕ := bitLenAux m m

/-- The true Lucas sequence U_k(P, Q): U_0 = 0, U_1 = 1,
U_{k+2} = P * U_{k+1} - Q * U_k.  This is the mathematical reference object the
spec describes; the repository is supposed to compute it mod n. -/
def lucasU (P Q : ℤ) : ℕ → ℤ
  | 0 => 0
  | 1 => 1
  | k + 2 => P * lucasU P Q (k + 1) - Q * lucasU P Q k

/-- The true Lucas sequence V_k(P, Q): V_0 = 2, V_1 = P,
V_{k+2} = P * V_{k+1} - Q * V_k. -/
def lucasV (P Q : ℤ) : ℕ → ℤ
  | 0 => 2
  | 1 => P
  | k + 2 => P * lucasV P Q (k + 1) - Q * lucasV P Q k

/-- One iteration of the binary loop of BailliePSW::lucas_sequence_mod
(baillie_psw.h lines 182-232), translated verbatim:
doubling step  u := u*v mod n,  v := (v*v mod n + 2*Q) mod n
(the C code does mpz_submul(t2, -2, Q), i.e. t2 + 2*Q, with no Q^m power),
then, when the processed bit of k is set, the odd-step update
u := ((u*P mod n) + v, made even by adding n, halved, mod n) and
v := ((v*P mod n) - (u_new * Q mod n)) mod n  (the C code multiplies the
ALREADY UPDATED u by Q here). -/
def lucasStep (P Q n : ℤ) (bit : Bool) (uv : ℤ × ℤ) : ℤ × ℤ :=
  let u2 := uv.1 * uv.2 % n
  let v2 := (uv.2 * uv.2 % n + 2 * Q) % n
  if bit then
    let t := u2 * P % n + v2
    let t := if t % 2 = 1 then t + n else t
    let u3 := Int.tdiv t 2 % n
    let v3 := (v2 * P % n - u3 * Q % n) % n
    (u3, v3)
  else
    (u2, v2)

/-- The binary loop of lucas_sequence_mod: the C loop runs
`for (i = bit_length - 1; i > 0; --i)` and tests bit i-1 of k, so with
count = bit_length - 1 iterations it consumes bits bit_length-2 .. 0. -/
def lucasLoop (P Q n : ℤ) (k : ℕ) : ℕ → ℤ × ℤ → ℤ × ℤ
  | 0, uv => uv
  | i + 1, uv => lucasLoop P Q n k i (lucasStep P Q n (k.testBit i) uv)

/-- BailliePSW::lucas_sequence_mod (baillie_psw.h lines 154-240): returns the
pair (u_k, v_k) the C function stores in its output parameters.  For k = 0 it
returns (0, 2); otherwise it runs the binary loop starting from
(u0, v0) = (0, 2) over bits bit_length-2 .. 0 of k. -/
def lucas_sequence_mod (P Q : ℤ) (k : ℕ) (n : ℤ) : ℤ × ℤ :=
  if k = 0 then (0, 2)
  else lucasLoop P Q n k (bitLen k - 1) (0, 2)

/-- Models the GMP library call mpz_probab_prime_p(n, 5) > 0 used on the
`gcd = n` branch of the discriminant search (baillie_psw.h line 284).  That
branch is reachable only for n = |D| ≤ 1000, where the GMP test is exact, so it
is modelled by exact primality of n. -/
def probablePrimeSmall (n : ℤ) : Bool := decide (n.toNat.Prime)

/-- The discriminant search loop of BailliePSW::strong_lucas_test
(baillie_psw.h lines 263-312).  State: current magnitude Dval (starts at 5) and
current sign (starts at +1).  Each iteration tries D = Dval * sign:
jacobi(D, n) = 0 leads to the gcd branch, jacobi(D, n) = -1 succeeds with D,
otherwise the sign flips and Dval grows by 2 each time the sign returns to +1;
if Dval exceeds 1000 the search gives up and the test answers false.
`Sum.inl D` means the search succeeded with discriminant D; `Sum.inr b` means
strong_lucas_test returns b immediately.  The fuel only bounds the recursion;
2000 iterations are more than the safety bound 1000 ever allows. -/
def findDloop (n : ℤ) : ℕ → ℤ → ℤ → Sum ℤ Bool
  | 0, _, _ => Sum.inr false
  | fuel + 1, Dval, sign =>
    let D := Dval * sign
    let j := jacobiSym D n.toNat
    if j = 0 then
      if (Int.gcd D n : ℤ) = n then Sum.inr (probablePrimeSmall n)
      else Sum.inr false
    else if j = -1 then Sum.inl D
    else
      let sign2 := -sign
      let Dval2 := if sign2 = 1 then Dval + 2 else Dval
      if Dval2 > 1000 then Sum.inr false
      else findDloop n fuel Dval2 sign2

/-- The Q computation of strong_lucas_test (baillie_psw.h lines 314-317) with
P = 1: Q := P - 1 = 0, then Q := Q - D = -D, then Q := Q tdiv 4 (mpz_tdiv_q_ui
truncates toward zero). -/
def lucasQ (D : ℤ) : ℤ := Int.tdiv (1 - 1 - D) 4

/-- The V-doubling of the r-loop of strong_lucas_test (baillie_psw.h lines
351-360): V := (V*V mod n - 2) mod n.  The C code overwrites Q with -2 and adds
it, so no Q^k power is involved. -/
def slDouble (n V : ℤ) : ℤ := (V * V % n - 2) % n

/-- The r-loop of strong_lucas_test (baillie_psw.h lines 343-361) with
`remaining` iterations left: answer true as soon as the tracked V is 0; apply
the doubling except on the last iteration; answer false when the loop ends. -/
def slVLoop (n : ℤ) : ℤ → ℕ → Bool
  | _, 0 => false
  | V, s + 1 =>
    if V = 0 then true
    else if s = 0 then false
    else slVLoop n (slDouble n V) s

/-- BailliePSW::strong_lucas_test (baillie_psw.h lines 248-368): run the
discriminant search with P = 1; on success compute Q, decompose
n + 1 = d * 2 ^ s, evaluate (U_d, V_d) with lucas_sequence_mod, answer true if
U_d = 0, otherwise run the V-doubling loop for s iterations. -/
def strong_lucas_test (n : ℤ) : Bool :=
  match findDloop n 2000 5 1 with
  | Sum.inr b => b
  | Sum.inl D =>
    let Q := lucasQ D
    let ds := split2 (n + 1).toNat
    let uv := lucas_sequence_mod 1 Q ds.1 n
    if uv.1 = 0 then true else slVLoop n uv.2 ds.2

/-- The small-primes table of baillie_psw.h lines 26-33. -/
def small_primes : List ℕ :=
  [2, 3, 5, 7, 11, 13, 17, 19, 23, 29, 31, 37, 41, 43, 47, 53, 59, 61, 67, 71,
   73, 79, 83, 89, 97, 101, 103, 107, 109, 113, 127, 131, 137, 139, 149, 151,
   157, 163, 167, 173, 179, 181, 191, 193, 197, 199, 211, 223, 227, 229, 233,
   239, 241, 251, 257, 263, 269, 271, 277, 281, 283, 293, 307, 311, 313, 317,
   331, 337, 347, 349, 353, 359, 367, 373, 379, 383, 389, 397, 401, 409, 419,
   421, 431, 433, 439, 443, 449, 457, 461, 463, 467, 479, 487, 491, 499, 503, 509]

/-- The trial-division stage of BailliePSW::test (baillie_psw.h lines 383-392):
skip 2, answer true on an exact match with a table prime, false on
divisibility, otherwise continue; none means the stage did not decide. -/
def trialDiv (n : ℤ) : List ℕ → Option Bool
  | [] => none
  | p :: ps =>
    if p = 2 then trialDiv n ps
    else if n = (p : ℤ) then some true
    else if n % (p : ℤ) = 0 then some false
    else trialDiv n ps

/-- Models the GMP call mpz_perfect_square_p from its specification: n is a
perfect square (negative numbers are not). -/
def isPerfectSquare (n : ℤ) : Bool :=
  if 0 ≤ n then decide (Nat.sqrt n.toNat * Nat.sqrt n.toNat = n.toNat) else false

/-- The squaring loop of the inline base-2 Miller-Rabin stage of
BailliePSW::test (baillie_psw.h lines 425-435): square x mod n; answer true on
reaching n - 1, false on reaching 1, false when the iterations are exhausted.
Note this stage tests x = n - 1 BEFORE x = 1. -/
def bpsw_sq (n : ℤ) : ℤ → ℕ → Bool
  | _, 0 => false
  | x, r + 1 =>
    let x2 := x * x % n
    if x2 = n - 1 then true
    else if x2 = 1 then false
    else bpsw_sq n x2 r

/-- Stage 4 of BailliePSW::test (baillie_psw.h lines 397-446): the inline
Miller-Rabin check with the fixed base 2.  Decompose n - 1 = d * 2 ^ s,
x := 2 ^ d mod n, pass if x ∈ {1, n - 1}, otherwise run the squaring loop
for s - 1 iterations. -/
def bpsw_stage4 (n : ℤ) : Bool :=
  let ds := split2 (n - 1).toNat
  let x := powMod 2 ds.1 n
  if x = 1 ∨ x = n - 1 then true else bpsw_sq n x (ds.2 - 1)

/-- BailliePSW::test (baillie_psw.h lines 376-450): the staged combinator.
n < 2 → false; n = 2 → true; even → false; trial division; perfect square →
false; base-2 Miller-Rabin → false on failure; else the strong Lucas test. -/
def BailliePSW_test (n : ℤ) : Bool :=
  if n < 2 then false
  else if n = 2 then true
  else if n % 2 = 0 then false
  else
    match trialDiv n small_primes with
    | some b => b
    | none =>
      if isPerfectSquare n then false
      else if bpsw_stage4 n then strong_lucas_test n else false

/-- The squaring loop of MillerRabin::test (miller_rabin.h lines 85-103):
square x mod n; answer false on reaching 1 (nontrivial square root of unity),
true on reaching n - 1, false when the iterations are exhausted.  Note this
loop tests x = 1 BEFORE x = n - 1, the opposite order of the inline stage of
baillie_psw.h. -/
def mr_sq (n : ℤ) : ℤ → ℕ → Bool
  | _, 0 => false
  | x, r + 1 =>
    let x2 := x * x % n
    if x2 = 1 then false
    else if x2 = n - 1 then true
    else mr_sq n x2 r

/-- One round of MillerRabin::test for witness a (miller_rabin.h lines 75-113):
x := a ^ d mod n, the round passes if x ∈ {1, n - 1}, otherwise the squaring
loop runs for s - 1 iterations; false means the test returns Composite. -/
def mr_witness (n : ℤ) (d s : ℕ) (a : ℤ) : Bool :=
  let x := powMod a d n
  if x = 1 ∨ x = n - 1 then true else mr_sq n x (s - 1)

/-- The clamp of miller_rabin.h lines 64-69: the sampling range is n - 3,
except that n ≤ 4 forces range 1. -/
def mr_nm3 (n : ℤ) : ℤ := if n ≤ 4 then 1 else n - 3

/-- Witness selection of miller_rabin.h lines 71-72: mpz_urandomm draws
uniformly in [0, mr_nm3 n); a raw stream value r is reduced mod the range and
shifted by 2, exactly a = (r mod (n-3)) + 2 for n ≥ 5. -/
def mr_pick (n : ℤ) (r : ℤ) : ℤ := r % mr_nm3 n + 2

/-- The k-round loop of MillerRabin::test (miller_rabin.h lines 58-114); rand
is the stream of raw mpz_urandomm outputs, i the index of the next draw. -/
def mrRounds (n : ℤ) (d s : ℕ) (rand : ℕ → ℤ) : ℕ → ℕ → Bool
  | 0, _ => true
  | k + 1, i =>
    if mr_witness n d s (mr_pick n (rand i)) then mrRounds n d s rand k (i + 1)
    else false

/-- MillerRabin::test (miller_rabin.h lines 28-125): guards
n < 2 → false, n = 2 → true, n = 3 → true, even → false; then decompose
n - 1 = d * 2 ^ s and run k witness rounds. -/
def MillerRabin_test (n : ℤ) (k : ℕ) (rand : ℕ → ℤ) : Bool :=
  if n < 2 then false
  else if n = 2 then true
  else if n = 3 then true
  else if n % 2 = 0 then false
  else
    let ds := split2 (n - 1).toNat
    mrRounds n ds.1 ds.2 rand k 0

/-- PrimalityTester::TestType (primality_tester.h lines 23-26). -/
inductive TestType
  | MILLER_RABIN
  | BAILLIE_PSW
deriving DecidableEq

/-- PrimalityTester::is_prime (primality_tester.h lines 54-65): dispatch on the
test type; k is the Miller-Rabin round count (default 40 at call sites). -/
def is_prime (n : ℤ) (t : TestType) (k : ℕ) (rand : ℕ → ℤ) : Bool :=
  match t with
  | .MILLER_RABIN => MillerRabin_test n k rand
  | .BAILLIE_PSW => BailliePSW_test n

/-- The 15-entry table of generate_prime (primality_tester.h lines 80-82). -/
def small15 : List ℕ := [2, 3, 5, 7, 11, 13, 17, 19, 23, 29, 31, 37, 41, 43, 47]

/-- MPZUtils::random_odd (mpz_utils.h): draw bits random bits (modelled by the
raw stream value r reduced mod 2 ^ bits, the meaning of mpz_urandomb), then
set the top bit (when bits > 0) and the low bit. -/
def random_odd (bits : ℕ) (r : ℕ) : ℕ :=
  let x := r % 2 ^ bits
  let x := if bits > 0 then x ||| 2 ^ (bits - 1) else x
  x ||| 1

/-- The candidate-sampling loop of generate_prime (primality_tester.h lines
100-106): draw a random odd number of the requested size and accept it as soon
as is_prime with DEFAULT arguments (MILLER_RABIN, k = 40) approves.  cand is
the stream of raw mpz_urandomb outputs, rands i the witness stream used by the
i-th is_prime call; the fuel bounds the otherwise unbounded C loop, none
standing for not yet terminated. -/
def gpLoop (bits : ℕ) (cand : ℕ → ℕ) (rands : ℕ → ℕ → ℤ) : ℕ → ℕ → Option ℤ
  | 0, _ => none
  | fuel + 1, i =>
    let c := random_odd bits (cand i)
    if is_prime (c : ℤ) .MILLER_RABIN 40 (rands i) then some (c : ℤ)
    else gpLoop bits cand rands fuel (i + 1)

/-- PrimalityTester::generate_prime (primality_tester.h lines 73-107):
bits ≤ 1 → the literal 2; for bits < 8 scan the 15-entry table for a prime of
binary length exactly bits and return it if found (the table has none of
length 7, so bits = 7 falls through); otherwise run the sampling loop. -/
def generate_prime (bits : ℕ) (cand : ℕ → ℕ) (rands : ℕ → ℕ → ℤ) (fuel : ℕ) :
    Option ℤ :=
  if bits ≤ 1 then some 2
  else
    match (if bits < 8 then small15.find? (fun p => bitLen p == bits) else none) with
    | some p => some (p : ℤ)
    | none => gpLoop bits cand rands fuel 0

/-- PrimalityTester::find_prime (primality_tester.h lines 117-122): the
TestType argument is accepted but not used; the function calls generate_prime
and always returns true as its boolean result. -/
def find_prime (bits : ℕ) (t : TestType) (cand : ℕ → ℕ) (rands : ℕ → ℕ → ℤ)
    (fuel : ℕ) : Option ℤ × Bool :=
  (generate_prime bits cand rands fuel, true)

/-- Modelled from the spec: the discriminant candidate sequence exactly as the
spec states it, 5, -7, 9, -11, 13, ... (alternating sign, magnitude increasing
by 2 every two steps).  Used only to compare the spec with the search order the
code actually implements. -/
def specD (i : ℕ) : ℤ := (if i % 2 = 0 then 1 else -1) * (5 + 2 * i)

/-! Helper lemmas -/

theorem findDloop_succ (n : ℤ) (f : ℕ) (Dv sg : ℤ) :
    findDloop n (f + 1) Dv sg =
      (if jacobiSym (Dv * sg) n.toNat = 0 then
         if (Int.gcd (Dv * sg) n : ℤ) = n then Sum.inr (probablePrimeSmall n)
         else Sum.inr false
       else if jacobiSym (Dv * sg) n.toNat = -1 then Sum.inl (Dv * sg)
       else if (if -sg = 1 then Dv + 2 else Dv) > 1000 then Sum.inr false
       else findDloop n f (if -sg = 1 then Dv + 2 else Dv) (-sg)) := rfl

theorem findDloop_adv (n : ℤ) (f : ℕ) (Dv sg Dv2 sg2 v : ℤ)
    (hj : jacobiSym (Dv * sg) n.toNat = v) (h0 : v ≠ 0) (h1 : v ≠ -1)
    (hs : -sg = sg2) (hd : (if sg2 = 1 then Dv + 2 else Dv) = Dv2)
    (hb : ¬(Dv2 > 1000)) :
    findDloop n (f + 1) Dv sg = findDloop n f Dv2 sg2 := by
  rw [findDloop_succ, hj, if_neg h0, if_neg h1, hs, hd, if_neg hb]

theorem findDloop_found (n : ℤ) (f : ℕ) (Dv sg v : ℤ)
    (hj : jacobiSym (Dv * sg) n.toNat = v) (hv : v = -1) :
    findDloop n (f + 1) Dv sg = Sum.inl (Dv * sg) := by
  subst hv
  rw [findDloop_succ, hj, if_neg (by decide : ¬((-1 : ℤ) = 0)), if_pos rfl]

theorem findD_23 : findDloop 23 2000 5 1 = Sum.inl 5 := by
  have h : jacobiSym (5 * 1 : ℤ) ((23 : ℤ).toNat) = -1 := by
    rw [show ((23 : ℤ).toNat) = 23 from rfl]; norm_num
  rw [show (2000 : ℕ) = 1999 + 1 from rfl, findDloop_found 23 1999 5 1 (-1) h rfl]
  norm_num

theorem findD_11 : findDloop 11 2000 5 1 = Sum.inl (-5) := by
  have h1 : jacobiSym (5 * 1 : ℤ) ((11 : ℤ).toNat) = 1 := by
    rw [show ((11 : ℤ).toNat) = 11 from rfl]; norm_num
  have h2 : jacobiSym (5 * -1 : ℤ) ((11 : ℤ).toNat) = -1 := by
    rw [show ((11 : ℤ).toNat) = 11 from rfl]; norm_num
  rw [show (2000 : ℕ) = 1999 + 1 from rfl,
      findDloop_adv 11 1999 5 1 5 (-1) 1 h1 (by decide) (by decide) (by decide)
        (by decide) (by decide),
      show (1999 : ℕ) = 1998 + 1 from rfl,
      findDloop_found 11 1998 5 (-1) (-1) h2 rfl]
  norm_num

theorem findD_19 : findDloop 19 2000 5 1 = Sum.inl (-5) := by
  have h1 : jacobiSym (5 * 1 : ℤ) ((19 : ℤ).toNat) = 1 := by
    rw [show ((19 : ℤ).toNat) = 19 from rfl]; norm_num
  have h2 : jacobiSym (5 * -1 : ℤ) ((19 : ℤ).toNat) = -1 := by
    rw [show ((19 : ℤ).toNat) = 19 from rfl]; norm_num
  rw [show (2000 : ℕ) = 1999 + 1 from rfl,
      findDloop_adv 19 1999 5 1 5 (-1) 1 h1 (by decide) (by decide) (by decide)
        (by decide) (by decide),
      show (1999 : ℕ) = 1998 + 1 from rfl,
      findDloop_found 19 1998 5 (-1) (-1) h2 rfl]
  norm_num

theorem mr_sq_eq_bpsw_sq (n : ℤ) (hn : n ≠ 2) :
    ∀ (c : ℕ) (x : ℤ), mr_sq n x c = bpsw_sq n x c := by
  intro c
  induction c with
  | zero => intro x; rfl
  | succ r ih =>
    intro x
    simp only [mr_sq, bpsw_sq]
    by_cases h1 : x * x % n = 1
    · have hne : ¬(1 : ℤ) = n - 1 := by omega
      simp [h1, hne]
    · by_cases h2 : x * x % n = n - 1
      · have hne : ¬(n - 1 : ℤ) = 1 := by omega
        simp [h1, h2, hne]
      · simp [h1, h2, ih]

theorem mrRounds_one (n : ℤ) (d s : ℕ) (rand : ℕ → ℤ) (i : ℕ) :
    mrRounds n d s rand 1 i =
      if mr_witness n d s (mr_pick n (rand i)) then true else false := rfl

theorem bitLenAux_zero : ∀ f, bitLenAux f 0 = 0
  | 0 => rfl
  | _ + 1 => by simp [bitLenAux]

theorem bitLenAux_log2 : ∀ f m, m ≤ f → m ≠ 0 → bitLenAux f m = Nat.log2 m + 1 := by
  intro f
  induction f with
  | zero => intro m h h0; omega
  | succ f ih =>
    intro m h h0
    simp only [bitLenAux, if_neg h0]
    by_cases h1 : m = 1
    · subst h1
      rw [show (1 : ℕ) / 2 = 0 from rfl, bitLenAux_zero]
      rw [Nat.log2]
      norm_num
    · have hm2 : 2 ≤ m := by omega
      have hh : m / 2 ≤ f := by omega
      have hne : m / 2 ≠ 0 := by omega
      rw [ih (m / 2) hh hne]
      conv_rhs => rw [Nat.log2]
      rw [if_pos hm2]

theorem bitLen_eq_log2 (m : ℕ) (h : m ≠ 0) : bitLen m = Nat.log2 m + 1 :=
  bitLenAux_log2 m m le_rfl h

theorem random_odd_lt (bits r : ℕ) (hb : 1 ≤ bits) : random_odd bits r < 2 ^ bits := by
  simp only [random_odd]
  rw [if_pos (by omega : bits > 0)]
  apply Nat.or_lt_two_pow
  · apply Nat.or_lt_two_pow
    · exact Nat.mod_lt _ (Nat.two_pow_pos bits)
    · exact Nat.pow_lt_pow_right (by omega) (by omega)
  · exact Nat.one_lt_two_pow (by omega)

theorem random_odd_ge (bits r : ℕ) (hb : 1 ≤ bits) :
    2 ^ (bits - 1) ≤ random_odd bits r := by
  apply Nat.testBit_implies_ge
  simp only [random_odd]
  rw [if_pos (by omega : bits > 0)]
  rw [Nat.testBit_or, Nat.testBit_or, Nat.testBit_two_pow_self]
  simp

theorem random_odd_bitLen (bits r : ℕ) (hb : 1 ≤ bits) :
    bitLen (random_odd bits r) = bits := by
  have hge := random_odd_ge bits r hb
  have hlt := random_odd_lt bits r hb
  have hpos := Nat.two_pow_pos (bits - 1)
  have hne : random_odd bits r ≠ 0 := by omega
  rw [bitLen_eq_log2 _ hne]
  have h1 : bits - 1 ≤ Nat.log2 (random_odd bits r) := (Nat.le_log2 hne).2 hge
  have h2 : Nat.log2 (random_odd bits r) < bits := (Nat.log2_lt hne).2 hlt
  omega

theorem gpLoop_some (bits : ℕ) (c : ℕ → ℕ) (r : ℕ → ℕ → ℤ) :
    ∀ (f i : ℕ) (n : ℤ), gpLoop bits c r f i = some n →
      ∃ j, n = ((random_odd bits (c j) : ℕ) : ℤ) ∧
        is_prime n TestType.MILLER_RABIN 40 (r j) = true := by
  intro f
  induction f with
  | zero => intro i n h; exact absurd h (by simp [gpLoop])
  | succ f ih =>
    intro i n h
    rw [show gpLoop bits c r (f + 1) i =
          (if is_prime ((random_odd bits (c i) : ℕ) : ℤ) TestType.MILLER_RABIN 40 (r i)
           then some ((random_odd bits (c i) : ℕ) : ℤ)
           else gpLoop bits c r f (i + 1)) from rfl] at h
    by_cases hp : is_prime ((random_odd bits (c i) : ℕ) : ℤ) TestType.MILLER_RABIN 40 (r i) = true
    · rw [if_pos hp] at h
      obtain rfl : ((random_odd bits (c i) : ℕ) : ℤ) = n := Option.some.inj h
      exact ⟨i, rfl, hp⟩
    · rw [if_neg hp] at h
      exact ih (i + 1) n h

/-! Claim theorems -/

/-- Claim C1 (code_bug evaluation): lucas_sequence_mod returns (0, 2) for k = 0
as claimed, but for k = 1 it also returns (0, 2) instead of the claimed
(U_1 mod n, V_1 mod n) = (1, P mod n): at P = 1, Q = -1, n = 5 the true values
are U_1 = 1, V_1 = 1, yet the function yields (0, 2), because its binary loop
never accounts for the most significant bit of k. -/
theorem lucas_sequence_mod_wrong_at_k1 :
    lucas_sequence_mod 1 (-1) 0 5 = (0, 2) ∧
    lucas_sequence_mod 1 (-1) 1 5 = (0, 2) ∧
    lucasU 1 (-1) 1 = 1 ∧ lucasV 1 (-1) 1 = 1 ∧
    lucas_sequence_mod 1 (-1) 1 5 ≠ (lucasU 1 (-1) 1 % 5, lucasV 1 (-1) 1 % 5) := by
  decide

/-- Claim C2 (code_bug evaluation): for n = 23 (odd, reaching the r-loop with
n + 1 = 24 = 3 * 2^3, discriminant D = 5, P = 1, Q = -1) the value tracked by
the r-loop of strong_lucas_test starts at 3 while the true V_3 mod 23 is 4,
and the doubling V * V - 2 produces 7 and then 1 while the true V_6 mod 23 and
V_12 mod 23 are 18 and 0; consequently strong_lucas_test declares the prime 23
composite. -/
theorem strong_lucas_tracked_v_wrong_at_23 :
    findDloop 23 2000 5 1 = Sum.inl 5 ∧
    lucasQ 5 = -1 ∧
    split2 ((23 : ℤ) + 1).toNat = (3, 3) ∧
    (lucas_sequence_mod 1 (-1) 3 23).2 = 3 ∧ lucasV 1 (-1) 3 % 23 = 4 ∧
    slDouble 23 3 = 7 ∧ lucasV 1 (-1) 6 % 23 = 18 ∧
    slDouble 23 7 = 1 ∧ lucasV 1 (-1) 12 % 23 = 0 ∧
    strong_lucas_test 23 = false := by
  refine ⟨findD_23, by decide, by decide, by decide, by decide, by decide,
          by decide, by decide, by decide, ?_⟩
  unfold strong_lucas_test
  rw [findD_23]
  decide

/-- Claim C3 (code_bug evaluation): the spec candidate order is 5, -7, 9, -11,
13, ... but the search of strong_lucas_test tries 5, -5, 7, -7, ...; for
n = 11 it stops at D = -5, a value the spec sequence does not even contain,
while in the claimed order the first candidate with Jacobi symbol -1 would be
13 (Jacobi(5,11) = Jacobi(-7,11) = Jacobi(9,11) = 1, Jacobi(-11,11) = 0,
Jacobi(13,11) = -1). -/
theorem discriminant_search_order_wrong_at_11 :
    findDloop 11 2000 5 1 = Sum.inl (-5) ∧
    specD 0 = 5 ∧ specD 1 = -7 ∧ specD 2 = 9 ∧ specD 3 = -11 ∧ specD 4 = 13 ∧
    jacobiSym 5 11 = 1 ∧ jacobiSym (-7) 11 = 1 ∧ jacobiSym 9 11 = 1 ∧
    jacobiSym (-11) 11 = 0 ∧ jacobiSym 13 11 = -1 := by
  exact ⟨findD_11, by decide, by decide, by decide, by decide, by decide,
         by norm_num, by norm_num, by norm_num, by norm_num, by norm_num⟩

/-- Claim C4 (code_bug evaluation): for n = 19 the discriminant search of
strong_lucas_test succeeds with D = -5, and the Q it computes is
(0 - D) tdiv 4 = 1, which is not (1 - D) / 4 exactly: 4 * 1 = 4 while
1 - (-5) = 6, so Q is not the claimed integer (indeed (1 - D) / 4 = 3/2 is not
an integer because the code leaves the spec sequence, on which D would always
be 1 mod 4). -/
theorem lucasQ_not_exact_at_19 :
    findDloop 19 2000 5 1 = Sum.inl (-5) ∧
    lucasQ (-5) = 1 ∧
    4 * lucasQ (-5) ≠ 1 - (-5) := by
  exact ⟨findD_19, by decide, by decide⟩

/-- Claim C5: for every odd n > 3, stage 4 of BailliePSW::test (bpsw_stage4)
returns exactly the verdict of one Miller-Rabin witness round with base a = 2
on the same decomposition of n - 1, and MillerRabin::test with k = 1 and a
random stream that selects witness 2 agrees with stage 4. -/
theorem bpsw_stage4_eq_mr_base2 (n : ℤ) (h3 : 3 < n) (hodd : n % 2 = 1) :
    bpsw_stage4 n =
      mr_witness n (split2 (n - 1).toNat).1 (split2 (n - 1).toNat).2 2 ∧
    MillerRabin_test n 1 (fun _ => 0) = bpsw_stage4 n := by
  have hmain : bpsw_stage4 n =
      mr_witness n (split2 (n - 1).toNat).1 (split2 (n - 1).toNat).2 2 := by
    simp only [bpsw_stage4, mr_witness]
    rw [mr_sq_eq_bpsw_sq n (by omega)]
  refine ⟨hmain, ?_⟩
  have hp : mr_pick n ((fun _ => (0 : ℤ)) 0) = 2 := by
    show (0 : ℤ) % mr_nm3 n + 2 = 2
    rw [Int.zero_emod]
    norm_num
  unfold MillerRabin_test
  rw [if_neg (by omega), if_neg (by omega), if_neg (by omega),
      if_neg (by omega : ¬(n % 2 = 0))]
  show mrRounds n (split2 (n - 1).toNat).1 (split2 (n - 1).toNat).2
        (fun _ => 0) 1 0 = bpsw_stage4 n
  rw [mrRounds_one, hp, hmain]
  cases mr_witness n (split2 (n - 1).toNat).1 (split2 (n - 1).toNat).2 2 <;> rfl

/-- Witness for claim C5 at n = 5: the hypotheses hold and both equalities are
realized. -/
theorem bpsw_stage4_eq_mr_base2_at_5 :
    bpsw_stage4 5 =
      mr_witness 5 (split2 ((5 : ℤ) - 1).toNat).1 (split2 ((5 : ℤ) - 1).toNat).2 2 ∧
    MillerRabin_test 5 1 (fun _ => 0) = bpsw_stage4 5 :=
  bpsw_stage4_eq_mr_base2 5 (by decide) (by decide)

/-- Claim C6 (counterexample): find_prime at bits = 1 returns the literal 2,
whose bit length is 2, not 1; and at bits = 7 it does not return a literal
small prime at all (the 15-entry table has no 7-bit member), entering the
sampling loop instead (with zero fuel the loop has produced nothing). -/
theorem find_prime_bitlength_cex :
    (find_prime 1 TestType.MILLER_RABIN (fun _ => 0) (fun _ _ => 0) 5).1 = some 2 ∧
    bitLen 2 = 2 ∧
    (find_prime 7 TestType.MILLER_RABIN (fun _ => 0) (fun _ _ => 0) 0).1 = none := by
  exact ⟨rfl, by decide, by decide⟩

/-- Claim C6 (amended): find_prime with bits = 1 returns the literal 2 (bit
length 2); with 2 ≤ bits ≤ 6 it bypasses sampling and returns a literal small
prime of exactly bits bits; with bits = 7 or bits ≥ 8 every value it returns
comes from the sampling loop: it is a random odd number of exactly bits bits
that was accepted by is_prime with the DEFAULT arguments (Miller-Rabin,
k = 40), regardless of the TestType passed to find_prime. -/
theorem find_prime_roundtrip_amended :
    (∀ (t : TestType) (c : ℕ → ℕ) (r : ℕ → ℕ → ℤ) (f : ℕ),
        (find_prime 1 t c r f).1 = some 2) ∧
    (∀ (bits : ℕ) (t : TestType) (c : ℕ → ℕ) (r : ℕ → ℕ → ℤ) (f : ℕ),
        2 ≤ bits → bits ≤ 6 →
        ∃ p : ℕ, (find_prime bits t c r f).1 = some (p : ℤ) ∧ bitLen p = bits ∧
          Nat.Prime p) ∧
    (∀ (bits : ℕ) (t : TestType) (c : ℕ → ℕ) (r : ℕ → ℕ → ℤ) (f : ℕ) (n : ℤ),
        7 ≤ bits → (find_prime bits t c r f).1 = some n →
        bitLen n.toNat = bits ∧
        ∃ j, n = ((random_odd bits (c j) : ℕ) : ℤ) ∧
          is_prime n TestType.MILLER_RABIN 40 (r j) = true) := by
  refine ⟨fun t c r f => rfl, ?_, ?_⟩
  · intro bits t c r f h2 h6
    interval_cases bits
    · exact ⟨2, rfl, by decide, by norm_num⟩
    · exact ⟨5, rfl, by decide, by norm_num⟩
    · exact ⟨11, rfl, by decide, by norm_num⟩
    · exact ⟨17, rfl, by decide, by norm_num⟩
    · exact ⟨37, rfl, by decide, by norm_num⟩
  · intro bits t c r f n h7 h
    have hg : (find_prime bits t c r f).1 = gpLoop bits c r f 0 := by
      show generate_prime bits c r f = _
      unfold generate_prime
      rw [if_neg (by omega)]
      rcases Nat.lt_or_ge bits 8 with h8 | h8
      · have hb7 : bits = 7 := by omega
        subst hb7
        rfl
      · rw [if_neg (by omega)]
    rw [hg] at h
    obtain ⟨j, hn, hip⟩ := gpLoop_some bits c r f 0 n h
    refine ⟨?_, ⟨j, hn, hip⟩⟩
    rw [hn, Int.toNat_natCast]
    exact random_odd_bitLen bits (c j) (by omega)

/-- Witness for claim C6 (amended) at bits = 4 and bits = 7: at bits = 4 a
literal 4-bit prime is returned; at bits = 7 with a candidate stream yielding
3 the sampling loop returns 67 = random_odd 7 3, which Miller-Rabin with 40
rounds of witness 2 accepts. -/
theorem find_prime_roundtrip_amended_inst :
    (find_prime 1 TestType.BAILLIE_PSW (fun _ => 0) (fun _ _ => 0) 3).1 = some 2 ∧
    (∃ p : ℕ, (find_prime 4 TestType.BAILLIE_PSW (fun _ => 0) (fun _ _ => 0) 3).1 =
        some (p : ℤ) ∧ bitLen p = 4 ∧ Nat.Prime p) ∧
    (bitLen (67 : ℤ).toNat = 7 ∧
      ∃ j : ℕ, (67 : ℤ) = ((random_odd 7 3 : ℕ) : ℤ) ∧
        is_prime 67 TestType.MILLER_RABIN 40 (fun _ => 0) = true) :=
  ⟨find_prime_roundtrip_amended.1 TestType.BAILLIE_PSW (fun _ => 0) (fun _ _ => 0) 3,
   find_prime_roundtrip_amended.2.1 4 TestType.BAILLIE_PSW (fun _ => 0) (fun _ _ => 0) 3
     (by norm_num) (by norm_num),
   find_prime_roundtrip_amended.2.2 7 TestType.BAILLIE_PSW (fun _ => 3) (fun _ _ => 0) 1 67
     (by norm_num) (by decide)⟩

/-- Claim C7 (counterexample): malformed inputs do NOT produce an
InvalidArgument signal; the tests silently return verdicts: n = 0 and n = -5
yield Composite from both tests, and round count k = 0 makes Miller-Rabin
return ProbablyPrime for the composite 9. -/
theorem invalid_input_verdict_cex :
    MillerRabin_test 0 1 (fun _ => 0) = false ∧
    MillerRabin_test (-5) 1 (fun _ => 0) = false ∧
    BailliePSW_test 0 = false ∧
    MillerRabin_test 9 0 (fun _ => 0) = true := by
  exact ⟨by decide, by decide, by decide, by decide⟩

/-- Claim C7 (amended): for non-positive n both tests return the verdict
Composite (false) rather than signaling an error, and for k = 0 rounds
Miller-Rabin returns ProbablyPrime (true) for every odd n ≥ 5 without any
testing; no error kind exists in the code. -/
theorem malformed_input_verdicts (n : ℤ) (k : ℕ) (rand : ℕ → ℤ)
    (m : ℤ) (rand2 : ℕ → ℤ) (hn : n ≤ 0) (hm5 : 5 ≤ m) (hmodd : m % 2 = 1) :
    MillerRabin_test n k rand = false ∧ BailliePSW_test n = false ∧
    MillerRabin_test m 0 rand2 = true := by
  refine ⟨?_, ?_, ?_⟩
  · unfold MillerRabin_test; rw [if_pos (by omega : n < 2)]
  · unfold BailliePSW_test; rw [if_pos (by omega : n < 2)]
  · unfold MillerRabin_test
    rw [if_neg (by omega), if_neg (by omega), if_neg (by omega),
        if_neg (by omega : ¬(m % 2 = 0))]
    rfl

/-- Witness for claim C7 (amended) at n = -3, m = 9. -/
theorem malformed_input_verdicts_inst :
    MillerRabin_test (-3) 2 (fun _ => 0) = false ∧
    BailliePSW_test (-3) = false ∧
    MillerRabin_test 9 0 (fun _ => 1) = true :=
  malformed_input_verdicts (-3) 2 (fun _ => 0) 9 (fun _ => 1)
    (by norm_num) (by norm_num) (by norm_num)

/-- Claim C8: every even n > 2 is declared Composite by both MillerRabin::test
(for any round count and random stream) and BailliePSW::test. -/
theorem even_composite_both (n : ℤ) (k : ℕ) (rand : ℕ → ℤ)
    (h2 : 2 < n) (he : n % 2 = 0) :
    MillerRabin_test n k rand = false ∧ BailliePSW_test n = false := by
  constructor
  · unfold MillerRabin_test
    rw [if_neg (by omega), if_neg (by omega), if_neg (by omega), if_pos he]
  · unfold BailliePSW_test
    rw [if_neg (by omega), if_neg (by omega), if_pos he]

/-- Witness for claim C8 at n = 4. -/
theorem even_composite_both_at_4 :
    (2 : ℤ) < 4 ∧ (4 : ℤ) % 2 = 0 ∧
    MillerRabin_test 4 3 (fun _ => 0) = false ∧ BailliePSW_test 4 = false :=
  ⟨by decide, by decide,
   (even_composite_both 4 3 (fun _ => 0) (by decide) (by decide)).1,
   (even_composite_both 4 3 (fun _ => 0) (by decide) (by decide)).2⟩

/-- Claim C9: find_prime ignores its TestType argument entirely: with the same
random streams it produces identical results for any two test types, its
integer component is exactly generate_prime (whose sampling loop validates
candidates with is_prime defaults, Miller-Rabin k = 40), and its boolean
result is always true. -/
theorem find_prime_ignores_testtype (bits : ℕ) (t t2 : TestType) (c : ℕ → ℕ)
    (r : ℕ → ℕ → ℤ) (f : ℕ) :
    find_prime bits t c r f = find_prime bits t2 c r f ∧
    (find_prime bits t c r f).1 = generate_prime bits c r f ∧
    (find_prime bits t c r f).2 = true :=
  ⟨rfl, rfl, rfl⟩

/-- Claim C10: for every odd n ≥ 5 (exactly the n that reach the witness
sampling loop: smaller or even n return at the guards), MillerRabin::test
proceeds to its round loop, the small-n clamp is not taken (the range is
n - 3, not 1), and every witness the sampler can produce lies in [2, n - 2]. -/
theorem mr_witness_sampling_range (n : ℤ) (k : ℕ) (rand : ℕ → ℤ) (r : ℤ)
    (h5 : 5 ≤ n) (hodd : n % 2 = 1) :
    MillerRabin_test n k rand =
      mrRounds n (split2 (n - 1).toNat).1 (split2 (n - 1).toNat).2 rand k 0 ∧
    mr_nm3 n = n - 3 ∧
    2 ≤ mr_pick n r ∧ mr_pick n r ≤ n - 2 := by
  have hnm : mr_nm3 n = n - 3 := by
    unfold mr_nm3; rw [if_neg (by omega : ¬(n ≤ 4))]
  refine ⟨?_, hnm, ?_, ?_⟩
  · unfold MillerRabin_test
    rw [if_neg (by omega), if_neg (by omega), if_neg (by omega),
        if_neg (by omega : ¬(n % 2 = 0))]
  · unfold mr_pick
    rw [hnm]
    have := Int.emod_nonneg r (show n - 3 ≠ 0 by omega)
    omega
  · unfold mr_pick
    rw [hnm]
    have := Int.emod_lt_of_pos r (show 0 < n - 3 by omega)
    omega

/-- Witness for claim C10 at n = 5, r = 7: the range is 2 and the witness
7 % 2 + 2 = 3 lies in [2, 3]. -/
theorem mr_witness_sampling_range_at_5 :
    MillerRabin_test 5 2 (fun _ => 1) =
      mrRounds 5 (split2 ((5 : ℤ) - 1).toNat).1 (split2 ((5 : ℤ) - 1).toNat).2
        (fun _ => 1) 2 0 ∧
    mr_nm3 5 = 5 - 3 ∧
    2 ≤ mr_pick 5 7 ∧ mr_pick 5 7 ≤ 5 - 2 :=
  mr_witness_sampling_range 5 2 (fun _ => 1) 7 (by norm_num) (by norm_num)

end PrimeGen
